import Mathlib

/-!
Verification development for the Nebula Weaver stellar-field pipeline.

The definitions below are a shallow embedding of the TypeScript source:

* the playback clock of the animation loop (NebulaCanvas, batch variant),
* the canvas sizing routine,
* the parallax draw-position computation of the render engine,
* the MediaRecorder container negotiation and download-name logic,
* the star detector (both the global-statistics variant in
  src/services/starDetectionService.ts and the block-background variant),
* the particle-source resolver and batch analysis loop of App.tsx,
* the sprite cache, and
* a labelled transition system for the batch export sequencer.

Floating point arithmetic of the source is embedded as exact rational
arithmetic; Math.sqrt is threaded through as an explicit function parameter
so that statements hold for every square-root implementation.
-/

/-- Particle record from src/types.ts: normalized position, depth factor,
per-particle size multiplier, optional alpha and optional hex color. -/
structure Particle where
  x : ℚ
  y : ℚ
  z : ℚ
  scale : ℚ
  alpha : Option ℚ := none
  color : Option String := none
deriving DecidableEq, Repr

/-- AnimationConfig from src/types.ts (zoom origin is per-item state and is
passed separately, as in the batch variant of the app). -/
structure AnimationConfig where
  initialScale : ℚ
  finalScale : ℚ
  rotationSpeed : ℚ
  duration : ℚ
deriving DecidableEq, Repr

/-! ## Playback clock

Embeds the animate callback of the batch NebulaCanvas (src/unnamed/part_006,
lines 355-377).  The source clamps the frame delta at 0.1 s
(safeDt = Math.min(dt, 0.1)) before advancing progress by safeDt/duration;
in preview mode progress wraps to 0 once it reaches 1, in capture mode it
is clamped at 1. -/

/-- One tick of the clock in Playing preview mode: progress advances by
min(dt, 0.1)/duration and wraps to 0 at 1 (part_006 lines 362-367). -/
def tickPreview (duration prev dt : ℚ) : ℚ :=
  let safeDt := min dt (1/10)
  let next := prev + safeDt / duration
  if 1 ≤ next then 0 else next

/-- One tick of the clock in capture mode: progress advances by
min(dt, 0.1)/duration and clamps at 1 (part_006 lines 368-374). -/
def tickCapture (duration prev dt : ℚ) : ℚ :=
  let safeDt := min dt (1/10)
  let next := prev + safeDt / duration
  if 1 ≤ next then 1 else next

/-- Runs a sequence of ticks with the given per-tick deltas. -/
def runTicks (tick : ℚ → ℚ → ℚ) (start : ℚ) (dts : List ℚ) : ℚ :=
  dts.foldl tick start

/-! ## Canvas sizing -/

/-- Resolution enum of VideoConfig (strings original / 1080p / 4k in the
source). -/
inductive Resolution
  | original
  | r1080p
  | r4k
deriving DecidableEq, Repr

/-- Canvas sizing of the batch NebulaCanvas (src/unnamed/part_006 lines
160-193): resolution-dependent target size, a mobile width cap in preview
mode, and a final floor of both dimensions to a multiple of 2. -/
def updateCanvasSizeBatch (natW natH : ℕ) (res : Resolution)
    (recording isMobile : Bool) : ℤ × ℤ :=
  let aspect : ℚ := (natW : ℚ) / (natH : ℚ)
  let resBranch : ℚ × ℚ :=
    match res with
    | .r1080p => if (natW : ℚ) > (natH : ℚ) then (1920, 1920 / aspect)
                 else (1080 * aspect, 1080)
    | .r4k => if (natW : ℚ) > (natH : ℚ) then (3840, 3840 / aspect)
              else (2160 * aspect, 2160)
    | .original => ((natW : ℚ), (natH : ℚ))
  let wh : ℚ × ℚ :=
    if recording then resBranch
    else if isMobile ∧ (natW : ℚ) > 1080 then (1080, 1080 / aspect)
    else resBranch
  (⌊wh.1 / 2⌋ * 2, ⌊wh.2 / 2⌋ * 2)

/-- Canvas sizing of src/components/NebulaCanvas.tsx lines 63-94 (no
recording/mobile branches), with the same final floor to even values. -/
def updateCanvasSize (natW natH : ℕ) (res : Resolution) : ℤ × ℤ :=
  let aspect : ℚ := (natW : ℚ) / (natH : ℚ)
  let wh : ℚ × ℚ :=
    match res with
    | .r1080p => if (natW : ℚ) > (natH : ℚ) then (1920, 1920 / aspect)
                 else (1080 * aspect, 1080)
    | .r4k => if (natW : ℚ) > (natH : ℚ) then (3840, 3840 / aspect)
              else (2160 * aspect, 2160)
    | .original => ((natW : ℚ), (natH : ℚ))
  (⌊wh.1 / 2⌋ * 2, ⌊wh.2 / 2⌋ * 2)

/-! ## Parallax render engine -/

/-- Linear interpolation of the background scale
(part_006 line 256). -/
def currentScale (cfg : AnimationConfig) (progress : ℚ) : ℚ :=
  cfg.initialScale + (cfg.finalScale - cfg.initialScale) * progress

/-- Background transform of part_006 lines 265-267: translate(zoomOrigin),
scale(s), translate(-zoomOrigin), i.e. scaling about the zoom origin. -/
def bgTransform (zo : ℚ × ℚ) (s : ℚ) (p : ℚ × ℚ) : ℚ × ℚ :=
  (zo.1 + (p.1 - zo.1) * s, zo.2 + (p.2 - zo.2) * s)

/-- Particle draw position of part_006 lines 307-314: the vector from the
zoom origin (in pixels) to the particle is scaled by
parallaxScale = currentScale + (currentScale - initialScale) * z * 2.0.
The global rotation transform is applied on top of both the background and
the particles equally and is therefore not part of this computation. -/
def particleDrawPos (cfg : AnimationConfig) (progress : ℚ) (zoomOrigin : ℚ × ℚ)
    (cW cH : ℚ) (p : Particle) : ℚ × ℚ :=
  let zOriginX := zoomOrigin.1 * cW
  let zOriginY := zoomOrigin.2 * cH
  let cs := currentScale cfg progress
  let zoomDelta := cs - cfg.initialScale
  let pX := p.x * cW
  let pY := p.y * cH
  let vecX := pX - zOriginX
  let vecY := pY - zOriginY
  let parallaxScale := cs + zoomDelta * p.z * 2
  (zOriginX + vecX * parallaxScale, zOriginY + vecY * parallaxScale)

/-! ## Container negotiation and download naming -/

/-- ExportFormat from src/types.ts. -/
inductive ExportFormat
  | webm
  | mp4
  | mov
  | mkv
deriving DecidableEq, Repr

/-- String value of the format as stored in VideoConfig. -/
def formatStr : ExportFormat → String
  | .webm => "webm"
  | .mp4 => "mp4"
  | .mov => "mov"
  | .mkv => "mkv"

/-- MIME negotiation of the recording effect (part_006 lines 410-422):
start from the webm/vp9 default, and only overwrite it when the requested
container probes as supported via MediaRecorder.isTypeSupported. -/
def negotiateMimeType (requested : ExportFormat)
    (isTypeSupported : String → Bool) : String :=
  match requested with
  | .mp4 | .mov =>
      if isTypeSupported "video/mp4" then "video/mp4"
      else if isTypeSupported "video/mp4;codecs=h264,aac" then
        "video/mp4;codecs=h264,aac"
      else "video/webm;codecs=vp9"
  | .mkv =>
      if isTypeSupported "video/x-matroska" then "video/x-matroska"
      else "video/webm;codecs=vp9"
  | .webm => "video/webm;codecs=vp9"

/-- Declared type of the emitted blob (part_006 line 444):
the stopped recorder mimeType, or the webm default when absent. -/
def emittedBlobType (recorderMime : Option String) : String :=
  recorderMime.getD "video/webm"

/-- Extension used for the suggested download filename
(src/App.tsx line 912): it is the requested VideoConfig format string. -/
def downloadExt (format : ExportFormat) : String := formatStr format

/-- Suggested download filename (src/App.tsx line 914). -/
def downloadFileName (name : String) (format : ExportFormat) : String :=
  name ++ "-animation." ++ downloadExt format

/-- Container family of each MIME string the pipeline can produce; used to
state which container a given negotiated MIME type actually is. -/
def mimeContainer (m : String) : String :=
  if m = "video/mp4" ∨ m = "video/mp4;codecs=h264,aac" then "mp4"
  else if m = "video/x-matroska" then "mkv"
  else "webm"

/-! ## Theorems: canvas dimensions (C10) -/

/-- C10: for every input image and every resolution setting, in preview and
in capture mode alike, both render-surface dimensions produced by the canvas
sizing routines are floored to a multiple of 2, hence even integers. -/
theorem canvas_dimensions_even (natW natH : ℕ) (res : Resolution)
    (recording isMobile : Bool) :
    (2 ∣ (updateCanvasSizeBatch natW natH res recording isMobile).1 ∧
      2 ∣ (updateCanvasSizeBatch natW natH res recording isMobile).2) ∧
    (2 ∣ (updateCanvasSize natW natH res).1 ∧
      2 ∣ (updateCanvasSize natW natH res).2) :=
  ⟨⟨dvd_mul_left 2 _, dvd_mul_left 2 _⟩, dvd_mul_left 2 _, dvd_mul_left 2 _⟩

/-! ## Theorems: depth-zero parallax lock (C7) -/

/-- C7: a particle with depth z = 0 is drawn exactly where the background
transform (scaling about the zoom origin by the current background scale)
sends its pixel position, at every progress value and for every animation
configuration; changing finalScale therefore adds no parallax offset beyond
the background scaling itself. -/
theorem depth_zero_locked_to_background (cfg : AnimationConfig) (progress : ℚ)
    (zoomOrigin : ℚ × ℚ) (cW cH : ℚ) (p : Particle) (hz : p.z = 0) :
    particleDrawPos cfg progress zoomOrigin cW cH p =
      bgTransform (zoomOrigin.1 * cW, zoomOrigin.2 * cH)
        (currentScale cfg progress) (p.x * cW, p.y * cH) := by
  simp [particleDrawPos, bgTransform, hz]

/-- Witness for C7: a concrete depth-zero particle at a concrete
configuration, progress and zoom origin. -/
theorem depth_zero_locked_to_background_witness :
    particleDrawPos ⟨1, 3/2, 1/2, 5⟩ (1/4) (1/2, 1/2) 800 600
        ⟨3/4, 1/4, 0, 1, none, none⟩ =
      bgTransform ((1:ℚ)/2 * 800, (1:ℚ)/2 * 600)
        (currentScale ⟨1, 3/2, 1/2, 5⟩ (1/4)) ((3:ℚ)/4 * 800, (1:ℚ)/4 * 600) :=
  depth_zero_locked_to_background ⟨1, 3/2, 1/2, 5⟩ (1/4) (1/2, 1/2) 800 600
    ⟨3/4, 1/4, 0, 1, none, none⟩ rfl

/-! ## Theorems: container type vs download extension (C1) -/

/-- C1 counterexample: when mp4 is requested but no mp4 MIME type probes as
supported, the negotiated (and therefore actually produced) container is the
webm default, yet the suggested download extension is still "mp4" — the
filename extension reflects the request, not the actual container. -/
theorem download_ext_mismatch_counterexample :
    negotiateMimeType ExportFormat.mp4 (fun _ => false) = "video/webm;codecs=vp9" ∧
    mimeContainer (negotiateMimeType ExportFormat.mp4 (fun _ => false)) = "webm" ∧
    downloadExt ExportFormat.mp4 = "mp4" ∧
    downloadExt ExportFormat.mp4 ≠
      mimeContainer (negotiateMimeType ExportFormat.mp4 (fun _ => false)) ∧
    downloadFileName "nebula" ExportFormat.mp4 = "nebula-animation.mp4" := by
  refine ⟨rfl, rfl, rfl, ?_, rfl⟩
  decide

/-- C1 amended: the negotiation never yields an unsupported container — it
returns either a MIME type that probed as supported or the webm/vp9 default —
and the declared type of the emitted blob is the actual recorder MIME type
(defaulting to webm); the suggested download filename extension, however, is
always the requested format string, even when the actual container differs. -/
theorem container_fallback_and_naming (requested : ExportFormat)
    (isTypeSupported : String → Bool) (recorderMime : String) :
    (negotiateMimeType requested isTypeSupported = "video/webm;codecs=vp9" ∨
      isTypeSupported (negotiateMimeType requested isTypeSupported) = true) ∧
    emittedBlobType (some recorderMime) = recorderMime ∧
    emittedBlobType none = "video/webm" ∧
    downloadExt requested = formatStr requested := by
  refine ⟨?_, rfl, rfl, rfl⟩
  cases requested with
  | webm => exact Or.inl rfl
  | mp4 =>
      by_cases h1 : isTypeSupported "video/mp4" = true
      · exact Or.inr (by simp [negotiateMimeType, h1])
      · by_cases h2 : isTypeSupported "video/mp4;codecs=h264,aac" = true
        · exact Or.inr (by simp [negotiateMimeType, h1, h2])
        · exact Or.inl (by simp [negotiateMimeType, h1, h2])
  | mov =>
      by_cases h1 : isTypeSupported "video/mp4" = true
      · exact Or.inr (by simp [negotiateMimeType, h1])
      · by_cases h2 : isTypeSupported "video/mp4;codecs=h264,aac" = true
        · exact Or.inr (by simp [negotiateMimeType, h1, h2])
        · exact Or.inl (by simp [negotiateMimeType, h1, h2])
  | mkv =>
      by_cases h1 : isTypeSupported "video/x-matroska" = true
      · exact Or.inr (by simp [negotiateMimeType, h1])
      · exact Or.inl (by simp [negotiateMimeType, h1])


/-! ## Theorems: playback clock (C6) -/

/-- Unfolding of the preview tick for a delta of at least 0.1 s at
duration 5: the clamped advance is exactly 1/50. -/
lemma tickPreview_step (p dt : ℚ) (hdt : 1/10 ≤ dt) :
    tickPreview 5 p dt = if 1 ≤ p + 1/50 then 0 else p + 1/50 := by
  simp only [tickPreview, min_eq_right hdt]
  norm_num

/-- Unfolding of the capture tick for a delta of at least 0.1 s at
duration 5. -/
lemma tickCapture_step (p dt : ℚ) (hdt : 1/10 ≤ dt) :
    tickCapture 5 p dt = if 1 ≤ p + 1/50 then 1 else p + 1/50 := by
  simp only [tickCapture, min_eq_right hdt]
  norm_num

/-- Closed form for a run of preview ticks with constant delta of at least
0.1 s at duration 5, starting from progress j/50 with j + k at most one full
loop: the run wraps to 0 exactly on the tick reaching progress 1. -/
lemma previewRun (dt : ℚ) (hdt : 1/10 ≤ dt) :
    ∀ (k j : ℕ), j < 50 → j + k ≤ 50 →
      runTicks (tickPreview 5) ((j : ℚ)/50) (List.replicate k dt) =
        if j + k = 50 then 0 else ((j : ℚ) + k)/50 := by
  intro k
  induction k with
  | zero =>
      intro j hj _
      simp [runTicks, Nat.ne_of_lt hj]
  | succ k ih =>
      intro j hj hjk
      have hstep : runTicks (tickPreview 5) ((j : ℚ)/50)
          (List.replicate (k+1) dt) =
          runTicks (tickPreview 5) (tickPreview 5 ((j : ℚ)/50) dt)
            (List.replicate k dt) := rfl
      rw [hstep, tickPreview_step _ _ hdt]
      have harith : (j : ℚ)/50 + 1/50 = ((j : ℚ) + 1)/50 := by ring
      by_cases h50 : 50 ≤ j + 1
      · have hj50 : j + 1 = 50 := by omega
        have hk0 : k = 0 := by omega
        have hcond : 1 ≤ (j : ℚ)/50 + 1/50 := by
          rw [harith]
          rw [show ((j : ℚ) + 1) = ((j + 1 : ℕ) : ℚ) by push_cast; ring, hj50]
          norm_num
        rw [if_pos hcond]
        subst hk0
        simp [runTicks, show j + (0 + 1) = 50 by omega]
      · have hcond : ¬ 1 ≤ (j : ℚ)/50 + 1/50 := by
          rw [harith]
          intro hc
          have : (50 : ℚ) ≤ (j : ℚ) + 1 := by
            rw [le_div_iff₀ (by norm_num : (0:ℚ) < 50)] at hc
            linarith
          have : (50 : ℕ) ≤ j + 1 := by exact_mod_cast this
          omega
        rw [if_neg hcond, harith]
        have hcast : ((j : ℚ) + 1) = ((j + 1 : ℕ) : ℚ) := by push_cast; ring
        rw [hcast]
        rw [ih (j+1) (by omega) (by omega)]
        have : j + (k + 1) = (j + 1) + k := by omega
        rw [this]
        push_cast
        ring_nf

/-- Closed form for a run of capture ticks with constant delta of at least
0.1 s at duration 5: progress clamps at 1 once j + k reaches a full loop
and stays there. -/
lemma captureRun (dt : ℚ) (hdt : 1/10 ≤ dt) :
    ∀ (k j : ℕ), j ≤ 50 →
      runTicks (tickCapture 5) ((j : ℚ)/50) (List.replicate k dt) =
        if 50 ≤ j + k then 1 else ((j : ℚ) + k)/50 := by
  intro k
  induction k with
  | zero =>
      intro j hj
      by_cases h : 50 ≤ j
      · have : j = 50 := by omega
        subst this
        simp [runTicks]
      · simp [runTicks, h]
  | succ k ih =>
      intro j hj
      have hstep : runTicks (tickCapture 5) ((j : ℚ)/50)
          (List.replicate (k+1) dt) =
          runTicks (tickCapture 5) (tickCapture 5 ((j : ℚ)/50) dt)
            (List.replicate k dt) := rfl
      rw [hstep, tickCapture_step _ _ hdt]
      have harith : (j : ℚ)/50 + 1/50 = ((j + 1 : ℕ) : ℚ)/50 := by
        push_cast
        ring
      by_cases h50 : 50 ≤ j + 1
      · have hcond : 1 ≤ (j : ℚ)/50 + 1/50 := by
          rw [harith, le_div_iff₀ (by norm_num : (0:ℚ) < 50)]
          have hc : (50 : ℚ) ≤ ((j + 1 : ℕ) : ℚ) := by exact_mod_cast h50
          linarith
        rw [if_pos hcond]
        have hone : (1 : ℚ) = ((50 : ℕ) : ℚ)/50 := by norm_num
        rw [hone, ih 50 (Nat.le_refl 50)]
        simp [show 50 ≤ j + (k+1) by omega]
      · have hcond : ¬ 1 ≤ (j : ℚ)/50 + 1/50 := by
          rw [harith]
          intro hc
          have : (50 : ℚ) ≤ ((j + 1 : ℕ) : ℚ) := by
            rw [le_div_iff₀ (by norm_num : (0:ℚ) < 50)] at hc
            linarith
          have : (50 : ℕ) ≤ j + 1 := by exact_mod_cast this
          omega
        rw [if_neg hcond, harith, ih (j+1) (by omega)]
        have : j + (k + 1) = (j + 1) + k := by omega
        rw [this]
        push_cast
        ring_nf

/-- C6 counterexample: with duration 5 s, ten ticks of 0.5 s each in preview
mode leave progress at 1/5, not 0 — the clock clamps each frame delta at
0.1 s (safeDt), so the ten half-second ticks advance only one fifth of a
loop instead of one full loop. -/
theorem clock_half_second_ticks_counterexample :
    runTicks (tickPreview 5) 0 (List.replicate 10 (1/2)) = 1/5 ∧
    (1/5 : ℚ) ≠ 0 := by
  constructor
  · have h := previewRun (1/2) (by norm_num) 10 0 (by norm_num) (by norm_num)
    norm_num at h
    simpa using h
  · norm_num

/-- C6 amended: each tick advances progress by min(dt, 0.1)/duration; in
preview mode progress wraps to 0 upon reaching 1 and in capture mode it
clamps at 1 and never exceeds it.  Concretely, for duration 5 s, fifty ticks
of 0.1 s each return progress to 0 in preview mode (one full loop) and clamp
it at exactly 1 in capture mode, where it remains for further ticks. -/
theorem playback_clock_clamped_advance (d p dt : ℚ) (hd : 0 < d)
    (hdt : 0 ≤ dt) (_hp0 : 0 ≤ p) (hp1 : p ≤ 1) :
    (p + min dt (1/10) / d < 1 → tickPreview d p dt = p + min dt (1/10) / d) ∧
    (1 ≤ p + min dt (1/10) / d → tickPreview d p dt = 0) ∧
    (p ≤ tickCapture d p dt ∧ tickCapture d p dt ≤ 1) ∧
    runTicks (tickPreview 5) 0 (List.replicate 50 (1/10)) = 0 ∧
    runTicks (tickCapture 5) 0 (List.replicate 50 (1/10)) = 1 ∧
    runTicks (tickCapture 5) 0 (List.replicate 60 (1/10)) = 1 := by
  have hmin : 0 ≤ min dt (1/10) := le_min hdt (by norm_num)
  have hstep : 0 ≤ min dt (1/10) / d := div_nonneg hmin hd.le
  refine ⟨?_, ?_, ⟨?_, ?_⟩, ?_, ?_, ?_⟩
  · intro h
    simp only [tickPreview]
    rw [if_neg (by linarith)]
  · intro h
    simp only [tickPreview]
    rw [if_pos h]
  · simp only [tickCapture]
    split
    · exact hp1
    · linarith
  · simp only [tickCapture]
    split
    · exact le_refl 1
    · next h => linarith
  · have h := previewRun (1/10) (by norm_num) 50 0 (by norm_num) (by norm_num)
    norm_num at h
    simpa using h
  · have h := captureRun (1/10) (by norm_num) 50 0 (by norm_num)
    norm_num at h
    simpa using h
  · have h := captureRun (1/10) (by norm_num) 60 0 (by norm_num)
    norm_num at h
    simpa using h

/-- Witness for C6: the amended clock theorem applied at duration 5,
progress 1/2 and delta 1/2. -/
theorem playback_clock_clamped_advance_witness :
    tickPreview 5 (1/2) (1/2) = 1/2 + min (1/2 : ℚ) (1/10) / 5 ∧
    (1/2 : ℚ) ≤ tickCapture 5 (1/2) (1/2) ∧ tickCapture 5 (1/2) (1/2) ≤ 1 := by
  have h := playback_clock_clamped_advance 5 (1/2) (1/2)
    (by norm_num) (by norm_num) (by norm_num) (by norm_num)
  refine ⟨h.1 ?_, h.2.2.1.1, h.2.2.1.2⟩
  have : min (1/2 : ℚ) (1/10) = 1/10 := min_eq_right (by norm_num)
  rw [this]
  norm_num

/-! ## Star detector

Embeds the two detector variants.  The analysis image is the already
downscaled RGBA pixel grid read back from the analysis canvas; pixels are
addressed by the flat index i = y * width + x exactly as the source
addresses its data array. -/

/-- One RGBA pixel (the alpha channel is never read by the detector). -/
structure RGBPixel where
  r : ℕ
  g : ℕ
  b : ℕ
deriving DecidableEq, Repr

/-- Decoded analysis image: dimensions plus the pixel fetch function. -/
structure AnalysisImage where
  width : ℕ
  height : ℕ
  pixel : ℕ → RGBPixel

/-- Perceptual luminance 0.299 R + 0.587 G + 0.114 B
(starDetectionService.ts line 50, part_002 line 325). -/
def luma (img : AnalysisImage) (i : ℕ) : ℚ :=
  (299/1000) * ((img.pixel i).r : ℚ) + (587/1000) * ((img.pixel i).g : ℚ) +
    (114/1000) * ((img.pixel i).b : ℚ)

/-- Index list visited by a source loop of the form
for (i = start; i < stop; i += step), in ascending order. -/
def loopIdx (start stop step : ℕ) : List ℕ :=
  (List.range stop).filter (fun i => start ≤ i && (i - start) % step == 0)

/-- Luminance statistics accumulator of starDetectionService.ts lines 39-59:
running total, total of squares and count over every 10th pixel. -/
def lumaStats (img : AnalysisImage) : ℚ × ℚ × ℚ :=
  (loopIdx 0 (img.width * img.height) 10).foldl
    (fun acc i => (acc.1 + luma img i, acc.2.1 + luma img i * luma img i,
      acc.2.2 + 1)) (0, 0, 0)

/-- Sample mean of starDetectionService.ts line 63. -/
def servicesMean (img : AnalysisImage) : ℚ :=
  (lumaStats img).1 / (lumaStats img).2.2

/-- Sample variance of starDetectionService.ts line 64. -/
def servicesVariance (img : AnalysisImage) : ℚ :=
  (lumaStats img).2.1 / (lumaStats img).2.2 - servicesMean img * servicesMean img

/-- Sigma multiplier of the services detector
(starDetectionService.ts line 70). -/
def servicesK : ℚ := 5/2

/-- Standard deviation of starDetectionService.ts line 65: square root of
the variance clamped at 0; the square-root implementation is a parameter. -/
def servicesStdDev (sqrtQ : ℚ → ℚ) (img : AnalysisImage) : ℚ :=
  sqrtQ (max 0 (servicesVariance img))

/-- Adaptive threshold of starDetectionService.ts line 70:
max(40, mean + stdDev * 2.5). -/
def servicesThreshold (sqrtQ : ℚ → ℚ) (img : AnalysisImage) : ℚ :=
  max 40 (servicesMean img + servicesStdDev sqrtQ img * servicesK)

/-- Ring average of starDetectionService.ts lines 103-112: the four
cardinal samples at radius 3, averaged. -/
def ringAvg (img : AnalysisImage) (idx : ℕ) : ℚ :=
  (luma img (idx - 3) + luma img (idx + 3) + luma img (idx - img.width * 3) +
    luma img (idx + img.width * 3)) / 4

/-- Candidate qualification of starDetectionService.ts lines 89-115: the
pixel passes the threshold, is a strict local maximum versus its four direct
neighbours, and exceeds the ring average by at least half a sigma. -/
def isStarAt (sqrtQ : ℚ → ℚ) (img : AnalysisImage) (x y : ℕ) : Bool :=
  let idx := y * img.width + x
  let val := luma img idx
  decide (servicesThreshold sqrtQ img ≤ val) &&
  (decide (luma img (idx - 1) < val) && decide (luma img (idx + 1) < val) &&
   decide (luma img (idx - img.width) < val) &&
   decide (luma img (idx + img.width) < val)) &&
  decide (servicesStdDev sqrtQ img * (1/2) ≤ val - ringAvg img idx)

/-- Scan loop of starDetectionService.ts lines 84-133: every 2nd pixel with
a 4-pixel edge margin, accumulating detected particles in order; the
sequential Math.random draws for the z depth are threaded as a stream
indexed by the count of accepted stars so far. -/
def scanFold (sqrtQ : ℚ → ℚ) (rng : ℕ → ℚ) (img : AnalysisImage) :
    List Particle × ℕ :=
  (loopIdx 4 (img.height - 4) 2).foldl (fun accY y =>
    (loopIdx 4 (img.width - 4) 2).foldl (fun acc x =>
      if isStarAt sqrtQ img x y then
        let idx := y * img.width + x
        let val := luma img idx
        let z := (rng acc.2) ^ 3 * 5
        let detectedScale := min 2 (max (3/10) ((val - ringAvg img idx) / 50))
        (acc.1 ++ [⟨(x : ℚ) / (img.width : ℚ), (y : ℚ) / (img.height : ℚ), z,
          detectedScale, none, none⟩], acc.2 + 1)
      else acc) accY) ([], 0)

/-- Core of detectStarsFromImage (starDetectionService.ts lines 14-136):
the particle list produced from a successfully decoded image. -/
def detectStarsCore (sqrtQ : ℚ → ℚ) (rng : ℕ → ℚ) (img : AnalysisImage) :
    List Particle :=
  (scanFold sqrtQ rng img).1

/-- Full detector as seen by its caller (starDetectionService.ts lines
8-140): a failed decode (img.onerror, line 138) resolves with the empty
list; the promise only ever resolves, it never rejects. -/
def detectStarsFromImage (sqrtQ : ℚ → ℚ) (rng : ℕ → ℚ)
    (decoded : Option AnalysisImage) : List Particle :=
  match decoded with
  | none => []
  | some img => detectStarsCore sqrtQ rng img

/-! ## Block-background detector variant (src/unnamed/part_002 lines
282-438): background estimation by per-block strided minimum, residual
statistics, and a 3-sigma residual threshold. -/

/-- Block size of the background grid (part_002 line 333). -/
def BLOCK_SIZE : ℕ := 16

/-- Sample coordinates visited inside block (gx, gy): stride 4 in both
directions, clipped to the image (part_002 lines 345-357). -/
def blockSampleCoords (img : AnalysisImage) (gx gy : ℕ) : List (ℕ × ℕ) :=
  (loopIdx (gy * BLOCK_SIZE) (min (gy * BLOCK_SIZE + BLOCK_SIZE) img.height) 4).flatMap
    (fun y => (loopIdx (gx * BLOCK_SIZE) (min (gx * BLOCK_SIZE + BLOCK_SIZE) img.width) 4).map
      (fun x => (x, y)))

/-- Sampled luminances of a block. -/
def blockSamples (img : AnalysisImage) (gx gy : ℕ) : List ℚ :=
  (blockSampleCoords img gx gy).map (fun c => luma img (c.2 * img.width + c.1))

/-- Background floor of block (gx, gy): the running minimum over the strided
samples, started at 255 (part_002 lines 338-361; the sum and count computed
by the same loop are never used afterwards). -/
def bgGrid (img : AnalysisImage) (gx gy : ℕ) : ℚ :=
  (blockSamples img gx gy).foldl min 255

/-- Residual at flat index i: luminance minus the background floor of the
enclosing block, clamped at 0 (part_002 lines 374-380). -/
def sxtResidual (img : AnalysisImage) (i : ℕ) : ℚ :=
  let x := i % img.width
  let y := i / img.width
  max 0 (luma img i - bgGrid img (x / BLOCK_SIZE) (y / BLOCK_SIZE))

/-- Residual statistics accumulator of part_002 lines 368-384: running
total, total of squares and count over every 100th pixel. -/
def sxtStats (img : AnalysisImage) : ℚ × ℚ × ℚ :=
  (loopIdx 0 (img.width * img.height) 100).foldl
    (fun acc i => (acc.1 + sxtResidual img i,
      acc.2.1 + sxtResidual img i * sxtResidual img i, acc.2.2 + 1)) (0, 0, 0)

/-- Residual mean of part_002 line 386. -/
def resMean (img : AnalysisImage) : ℚ :=
  (sxtStats img).1 / (sxtStats img).2.2

/-- Residual variance (the argument of Math.sqrt in part_002 line 387). -/
def resVariance (img : AnalysisImage) : ℚ :=
  (sxtStats img).2.1 / (sxtStats img).2.2 - resMean img * resMean img

/-- Sigma multiplier of the block-background detector
(part_002 line 388). -/
def sxtK : ℚ := 3

/-- Adaptive threshold of part_002 line 388:
residual mean + residual standard deviation * 3. -/
def sxtThreshold (sqrtQ : ℚ → ℚ) (img : AnalysisImage) : ℚ :=
  resMean img + sqrtQ (resVariance img) * sxtK

/-- Residual samples used by the statistics pass, as a list. -/
def sxtResidualSamples (img : AnalysisImage) : List ℚ :=
  (loopIdx 0 (img.width * img.height) 100).map (sxtResidual img)

/-! ## Particle source resolver and batch analysis (src/App.tsx lines
755-853) and the canvas particle effect (src/unnamed/part_006 lines
195-223). -/

/-- Hotspot supplied by the external analysis service, coordinates in
0..100 (src/types.ts starHotspots). -/
structure Hotspot where
  x : ℚ
  y : ℚ
deriving DecidableEq, Repr

/-- Detection mode recorded on a batch item (src/types.ts). -/
inductive DetectionMode
  | real
  | aiMap
  | procedural
deriving DecidableEq, Repr

/-- Cluster size of the hotspot expansion (App.tsx line 813). -/
def CLUSTER_SIZE : ℕ := 50

/-- Expansion of one hotspot into a cluster (App.tsx lines 814-830): each
candidate draws two jitter offsets (Math.random() - 0.5) * 0.15; a candidate
inside the unit square additionally draws z, scale and alpha and is pushed;
a candidate outside it is discarded.  The sequential Math.random draws are
threaded as a stream with an explicit cursor, consuming two values for a
discarded candidate and five for a pushed one, matching the source call
order. -/
def clusterStep (spot : Hotspot) (clusterColor : String) (rng : ℕ → ℚ) :
    ℕ → ℕ → List Particle × ℕ
  | 0, c => ([], c)
  | k+1, c =>
      let offsetX := (rng c - 1/2) * (15/100)
      let offsetY := (rng (c+1) - 1/2) * (15/100)
      let x := spot.x / 100 + offsetX
      let y := spot.y / 100 + offsetY
      if 0 ≤ x ∧ x ≤ 1 ∧ 0 ≤ y ∧ y ≤ 1 then
        let z := (rng (c+2)) ^ 3 * 5
        let sc := 1/2 + rng (c+3)
        let a := 1/2 + rng (c+4) * (1/2)
        let rest := clusterStep spot clusterColor rng k (c+5)
        (⟨x, y, z, sc, some a, some clusterColor⟩ :: rest.1, rest.2)
      else
        clusterStep spot clusterColor rng k (c+2)

/-- Count of discarded candidates of one hotspot cluster, with the same
random-stream threading as clusterStep. -/
def clusterDiscards (spot : Hotspot) (rng : ℕ → ℚ) : ℕ → ℕ → ℕ × ℕ
  | 0, c => (0, c)
  | k+1, c =>
      let x := spot.x / 100 + (rng c - 1/2) * (15/100)
      let y := spot.y / 100 + (rng (c+1) - 1/2) * (15/100)
      if 0 ≤ x ∧ x ≤ 1 ∧ 0 ≤ y ∧ y ≤ 1 then
        clusterDiscards spot rng k (c+5)
      else
        let rest := clusterDiscards spot rng k (c+2)
        (rest.1 + 1, rest.2)

/-- All clusters of the hotspot list in order (App.tsx lines 812-830,
forEach over starHotspots). -/
def aiMapFold (spots : List Hotspot) (clusterColor : String) (rng : ℕ → ℚ) :
    List Particle × ℕ :=
  spots.foldl (fun acc spot =>
    let r := clusterStep spot clusterColor rng CLUSTER_SIZE acc.2
    (acc.1 ++ r.1, r.2)) ([], 0)

/-- Particle list of the ai-map branch. -/
def aiMapParticles (spots : List Hotspot) (clusterColor : String)
    (rng : ℕ → ℚ) : List Particle :=
  (aiMapFold spots clusterColor rng).1

/-- Total number of discarded candidates across all clusters. -/
def aiMapDiscards (spots : List Hotspot) (rng : ℕ → ℚ) : ℕ :=
  (spots.foldl (fun acc spot =>
    let r := clusterDiscards spot rng CLUSTER_SIZE acc.2
    (acc.1 + r.1, r.2)) (0, 0)).1

/-- Cluster color: head of the dominant colors, or white
(App.tsx line 825). -/
def dominantOrWhite : List String → String
  | [] => "#ffffff"
  | c :: _ => c

/-- Particle resolution of App.tsx lines 806-836: more than 50 detected
stars selects the real detection; otherwise a non-empty hotspot list selects
the ai-map expansion; otherwise the item keeps no detected particles and
falls through to procedural generation in the canvas. -/
def resolveParticles (imageStars : List Particle) (starHotspots : List Hotspot)
    (dominantColors : List String) (rng : ℕ → ℚ) :
    DetectionMode × Option (List Particle) :=
  if 50 < imageStars.length then (.real, some imageStars)
  else if starHotspots ≠ [] then
    (.aiMap, some (aiMapParticles starHotspots (dominantOrWhite dominantColors) rng))
  else (.procedural, none)

/-- Device-dependent particle cap of the canvas effect
(part_006 line 196). -/
def MAX_PARTICLES (isMobile : Bool) : ℕ := if isMobile then 1500 else 3500

/-- Descending sort by scale (part_006 line 202,
sort((a, b) => b.scale - a.scale)). -/
def sortByScaleDesc (l : List Particle) : List Particle :=
  l.mergeSort (fun a b => decide (b.scale ≤ a.scale))

/-- Procedural generation of part_006 lines 207-220: min(count, cap)
particles, each consuming four Math.random draws in source order
(z first, then x, y, scale). -/
def generateParticles (count maxP : ℕ) (rng : ℕ → ℚ) : List Particle :=
  (List.range (min count maxP)).map (fun i =>
    ⟨rng (4*i+1), rng (4*i+2), (rng (4*i)) ^ 3 * 5, 1/2 + rng (4*i+3),
      none, none⟩)

/-- Active particle selection of the canvas effect (part_006 lines 195-223):
a non-empty detected list is used directly, capped to the device maximum by
keeping the largest-scale particles; otherwise density-many procedural
particles are generated. -/
def canvasActiveParticles (detected : Option (List Particle)) (density : ℕ)
    (isMobile : Bool) (rng : ℕ → ℚ) : List Particle :=
  let maxP := MAX_PARTICLES isMobile
  match detected with
  | some l =>
      if 0 < l.length then
        if maxP < l.length then (sortByScaleDesc l).take maxP else l
      else generateParticles density maxP rng
  | none => generateParticles density maxP rng

/-- Per-item status of a batch item (src/types.ts). -/
inductive ItemStatus
  | idle
  | analyzing
  | success
  | error
deriving DecidableEq, Repr

/-- Joint result of the awaited analysis and detection for one item
(App.tsx lines 799-802). -/
structure Analyzed where
  imageStars : List Particle
  starHotspots : List Hotspot
  dominantColors : List String

/-- Fields of a batch item written by one iteration of the analysis loop. -/
structure BatchOutcome where
  status : ItemStatus
  mode : DetectionMode
  detected : Option (List Particle)
deriving DecidableEq, Repr

/-- One iteration of the batch analysis loop (App.tsx lines 774-843): a
successful item gets status success and its resolved particles; a thrown
error is caught and the item gets status error, keeping its initial null
particles and procedural mode. -/
def processItem (rng : ℕ → ℚ) (result : Except Unit Analyzed) : BatchOutcome :=
  match result with
  | .error _ => ⟨.error, .procedural, none⟩
  | .ok a =>
      let r := resolveParticles a.imageStars a.starHotspots a.dominantColors rng
      ⟨.success, r.1, r.2⟩

/-- Batch analysis loop of App.tsx lines 766-847: each iteration writes only
item i and the for-loop continues past a caught error, so the loop is the
per-item map of processItem over the item outcomes. -/
def handleBatchAnalysis (rng : ℕ → ℚ)
    (results : List (Except Unit Analyzed)) : List BatchOutcome :=
  results.map (processItem rng)

/-! ## Lemmas about the hotspot expansion -/

/-- Every cluster candidate is either pushed or discarded: pushed plus
discarded candidates add up to the cluster size, and both passes leave the
random cursor in the same position. -/
lemma clusterStep_length_discards (spot : Hotspot) (col : String)
    (rng : ℕ → ℚ) :
    ∀ (k c : ℕ),
      (clusterStep spot col rng k c).1.length +
        (clusterDiscards spot rng k c).1 = k ∧
      (clusterStep spot col rng k c).2 = (clusterDiscards spot rng k c).2 := by
  intro k
  induction k with
  | zero => intro c; simp [clusterStep, clusterDiscards]
  | succ k ih =>
      intro c
      by_cases h : 0 ≤ spot.x / 100 + (rng c - 1/2) * (15/100) ∧
          spot.x / 100 + (rng c - 1/2) * (15/100) ≤ 1 ∧
          0 ≤ spot.y / 100 + (rng (c+1) - 1/2) * (15/100) ∧
          spot.y / 100 + (rng (c+1) - 1/2) * (15/100) ≤ 1
      · simp only [clusterStep, clusterDiscards, if_pos h]
        have := ih (c+5)
        constructor
        · simp only [List.length_cons]
          omega
        · exact this.2
      · simp only [clusterStep, clusterDiscards, if_neg h]
        have := ih (c+2)
        constructor
        · omega
        · exact this.2

/-- Every particle emitted by a cluster lies inside the unit square. -/
lemma clusterStep_mem_bounds (spot : Hotspot) (col : String) (rng : ℕ → ℚ) :
    ∀ (k c : ℕ) (p : Particle), p ∈ (clusterStep spot col rng k c).1 →
      0 ≤ p.x ∧ p.x ≤ 1 ∧ 0 ≤ p.y ∧ p.y ≤ 1 := by
  intro k
  induction k with
  | zero => intro c p hp; simp [clusterStep] at hp
  | succ k ih =>
      intro c p hp
      by_cases h : 0 ≤ spot.x / 100 + (rng c - 1/2) * (15/100) ∧
          spot.x / 100 + (rng c - 1/2) * (15/100) ≤ 1 ∧
          0 ≤ spot.y / 100 + (rng (c+1) - 1/2) * (15/100) ∧
          spot.y / 100 + (rng (c+1) - 1/2) * (15/100) ≤ 1
      · simp only [clusterStep, if_pos h, List.mem_cons] at hp
        rcases hp with hp | hp
        · subst hp
          exact h
        · exact ih (c+5) p hp
      · simp only [clusterStep, if_neg h] at hp
        exact ih (c+2) p hp

/-- Folded version of the push/discard accounting across all hotspots. -/
lemma aiMapFold_length_discards (col : String) (rng : ℕ → ℚ) :
    ∀ (spots : List Hotspot) (accL : List Particle) (accN c : ℕ),
      ((spots.foldl (fun acc spot =>
          let r := clusterStep spot col rng CLUSTER_SIZE acc.2
          (acc.1 ++ r.1, r.2)) (accL, c)).1.length +
        (spots.foldl (fun acc spot =>
          let r := clusterDiscards spot rng CLUSTER_SIZE acc.2
          (acc.1 + r.1, r.2)) (accN, c)).1) =
      accL.length + accN + spots.length * CLUSTER_SIZE := by
  intro spots
  induction spots with
  | nil => intro accL accN c; simp
  | cons spot rest ih =>
      intro accL accN c
      simp only [List.foldl_cons, List.length_cons]
      have hcur := clusterStep_length_discards spot col rng CLUSTER_SIZE c
      rw [hcur.2]
      rw [ih (accL ++ (clusterStep spot col rng CLUSTER_SIZE c).1)
        (accN + (clusterDiscards spot rng CLUSTER_SIZE c).1)
        (clusterDiscards spot rng CLUSTER_SIZE c).2]
      simp only [List.length_append]
      have h50 := hcur.1
      ring_nf
      omega

/-- C4 accounting: the ai-map branch emits exactly H * 50 particles minus
the discarded out-of-bounds candidates. -/
lemma aiMap_length (spots : List Hotspot) (col : String) (rng : ℕ → ℚ) :
    (aiMapParticles spots col rng).length + aiMapDiscards spots rng =
      spots.length * CLUSTER_SIZE := by
  have h := aiMapFold_length_discards col rng spots [] 0 0
  simpa [aiMapParticles, aiMapFold, aiMapDiscards] using h

/-- Every ai-map particle lies inside the unit square. -/
lemma aiMap_mem_bounds (spots : List Hotspot) (col : String) (rng : ℕ → ℚ) :
    ∀ p ∈ aiMapParticles spots col rng,
      0 ≤ p.x ∧ p.x ≤ 1 ∧ 0 ≤ p.y ∧ p.y ≤ 1 := by
  have hgen : ∀ (l : List Hotspot) (accL : List Particle) (c : ℕ)
      (p : Particle), p ∈ (l.foldl (fun acc spot =>
          let r := clusterStep spot col rng CLUSTER_SIZE acc.2
          (acc.1 ++ r.1, r.2)) (accL, c)).1 →
        p ∈ accL ∨ (0 ≤ p.x ∧ p.x ≤ 1 ∧ 0 ≤ p.y ∧ p.y ≤ 1) := by
    intro l
    induction l with
    | nil => intro accL c p hp; exact Or.inl (by simpa using hp)
    | cons spot rest ih =>
        intro accL c p hp
        simp only [List.foldl_cons] at hp
        rcases ih _ _ p hp with hmem | hb
        · rcases List.mem_append.mp hmem with hacc | hclu
          · exact Or.inl hacc
          · exact Or.inr (clusterStep_mem_bounds spot col rng CLUSTER_SIZE c p hclu)
        · exact Or.inr hb
  intro p hp
  rcases hgen spots [] 0 p hp with hmem | hb
  · simp at hmem
  · exact hb

/-! ## Theorems: particle source resolution (C4) -/

/-- C4: the resolver selects the real detection exactly when more than 50
stars were detected, the canvas caps the used set at 1500 (mobile) / 3500
(desktop) keeping the largest-scale particles; with a small detection and a
non-empty hotspot list of length H the ai-map expansion emits exactly
H * 50 particles minus the discarded out-of-unit-square candidates, each
emitted particle lying inside the unit square; and otherwise the item keeps
no particles and the canvas generates density-many procedural particles
(density is bounded by 500 by the UI slider, App.tsx line 1227, hence below
both device caps). -/
theorem particle_source_resolution (stars : List Particle) (hs : List Hotspot)
    (cols : List String) (rng : ℕ → ℚ) (density : ℕ) (isMobile : Bool)
    (l : List Particle) (hl : l ≠ []) (hdens : density ≤ 500) :
    ((resolveParticles stars hs cols rng).1 = .real ↔ 50 < stars.length) ∧
    (50 < stars.length →
      resolveParticles stars hs cols rng = (.real, some stars)) ∧
    (stars.length ≤ 50 → hs ≠ [] →
      resolveParticles stars hs cols rng =
        (.aiMap, some (aiMapParticles hs (dominantOrWhite cols) rng)) ∧
      (aiMapParticles hs (dominantOrWhite cols) rng).length +
          aiMapDiscards hs rng = hs.length * CLUSTER_SIZE ∧
      ∀ p ∈ aiMapParticles hs (dominantOrWhite cols) rng,
        0 ≤ p.x ∧ p.x ≤ 1 ∧ 0 ≤ p.y ∧ p.y ≤ 1) ∧
    (stars.length ≤ 50 → hs = [] →
      resolveParticles stars hs cols rng = (.procedural, none) ∧
      (canvasActiveParticles none density isMobile rng).length = density) ∧
    (canvasActiveParticles (some l) density isMobile rng).length =
      min l.length (MAX_PARTICLES isMobile) ∧
    (MAX_PARTICLES isMobile < l.length →
      ∀ p ∈ canvasActiveParticles (some l) density isMobile rng,
        ∀ q ∈ (sortByScaleDesc l).drop (MAX_PARTICLES isMobile),
          q.scale ≤ p.scale) := by
  have hgenlen : (canvasActiveParticles none density isMobile rng).length =
      density := by
    simp only [canvasActiveParticles, generateParticles, List.length_map,
      List.length_range]
    cases isMobile <;> simp [MAX_PARTICLES] <;> omega
  have hsorted : List.Pairwise
      (fun a b : Particle => decide (b.scale ≤ a.scale) = true)
      (sortByScaleDesc l) := by
    apply List.sorted_mergeSort
    · intro a b c h1 h2
      exact decide_eq_true (le_trans (of_decide_eq_true h2) (of_decide_eq_true h1))
    · intro a b
      simp only [Bool.or_eq_true, decide_eq_true_eq]
      exact (le_total a.scale b.scale).symm
  refine ⟨?_, ?_, ?_, ?_, ?_, ?_⟩
  · by_cases h : 50 < stars.length
    · simp [resolveParticles, h]
    · by_cases h2 : hs = []
      · simp [resolveParticles, h, h2]
      · simp [resolveParticles, h, h2]
  · intro h
    simp [resolveParticles, h]
  · intro h1 h2
    refine ⟨by simp [resolveParticles, Nat.not_lt.mpr h1, h2], aiMap_length _ _ _, aiMap_mem_bounds _ _ _⟩
  · intro h1 h2
    exact ⟨by simp [resolveParticles, Nat.not_lt.mpr h1, h2], hgenlen⟩
  · have hpos : 0 < l.length := List.length_pos.mpr hl
    by_cases h : MAX_PARTICLES isMobile < l.length
    · simp only [canvasActiveParticles, if_pos hpos, if_pos h]
      rw [List.length_take]
      have hms : (sortByScaleDesc l).length = l.length := by
        simp [sortByScaleDesc, List.length_mergeSort]
      rw [hms]
      exact min_comm _ _
    · simp only [canvasActiveParticles, if_pos hpos, if_neg h]
      omega
  · intro h p hp q hq
    have hpos : 0 < l.length := List.length_pos.mpr hl
    simp only [canvasActiveParticles, if_pos hpos, if_pos h] at hp
    have := List.Sorted.rel_of_mem_take_of_mem_drop hsorted hp hq
    exact of_decide_eq_true this

/-- Witness for C4: the resolution theorem applied to a concrete 51-star
detection (mode real), a concrete singleton detected list (cap arithmetic)
and the procedural fallback at density 3. -/
theorem particle_source_resolution_witness :
    resolveParticles (List.replicate 51 ⟨0, 0, 0, 1, none, none⟩) [] []
        (fun _ => 1/2) =
      (.real, some (List.replicate 51 ⟨0, 0, 0, 1, none, none⟩)) ∧
    (canvasActiveParticles (some [⟨0, 0, 0, 1, none, none⟩]) 3 false
        (fun _ => 1/2)).length = min 1 (MAX_PARTICLES false) ∧
    (canvasActiveParticles none 3 false (fun _ => 1/2)).length = 3 ∧
    resolveParticles [] [] [] (fun _ => 1/2) = (.procedural, none) := by
  have h1 := particle_source_resolution
    (List.replicate 51 ⟨0, 0, 0, 1, none, none⟩) [] [] (fun _ => 1/2) 3 false
    [⟨0, 0, 0, 1, none, none⟩] (by simp) (by norm_num)
  have h2 := particle_source_resolution [] [] [] (fun _ => 1/2) 3 false
    [⟨0, 0, 0, 1, none, none⟩] (by simp) (by norm_num)
  refine ⟨h1.2.1 (by simp), ?_, (h2.2.2.2.1 (by simp) rfl).2, (h2.2.2.2.1 (by simp) rfl).1⟩
  have := h1.2.2.2.2.1
  simpa using this

/-! ## Theorems: flat image and decode failure (C8, C3) -/

/-- Generic collapse of a fold whose body never changes the accumulator. -/
lemma foldl_id {α β : Type _} (f : β → α → β) (h : ∀ b a, f b a = b) :
    ∀ (xs : List α) (b : β), xs.foldl f b = b := by
  intro xs
  induction xs with
  | nil => intro b; rfl
  | cons x rest ih =>
      intro b
      rw [List.foldl_cons, h b x]
      exact ih b

/-- On an image of constant luminance no pixel qualifies: the strict
local-maximum comparison against the left neighbour already fails. -/
lemma isStarAt_flat (sqrtQ : ℚ → ℚ) (img : AnalysisImage)
    (hflat : ∀ i j, luma img i = luma img j) (x y : ℕ) :
    isStarAt sqrtQ img x y = false := by
  have h1 : luma img (y * img.width + x - 1) = luma img (y * img.width + x) :=
    hflat _ _
  simp [isStarAt, h1]

/-- C8: for every all-uniform input image (all pixels of equal luminance)
the star detector returns an empty result, for every square-root
implementation, every random stream and every uniform brightness level: no
pixel passes the combined threshold, strict four-neighbour local-maximum and
ring-isolation checks. -/
theorem flat_image_detects_nothing (sqrtQ : ℚ → ℚ) (rng : ℕ → ℚ)
    (img : AnalysisImage) (hflat : ∀ i j, luma img i = luma img j) :
    detectStarsFromImage sqrtQ rng (some img) = [] := by
  have hstar : ∀ x y, isStarAt sqrtQ img x y = false :=
    fun x y => isStarAt_flat sqrtQ img hflat x y
  have hinner : ∀ (accY : List Particle × ℕ) (y : ℕ),
      (loopIdx 4 (img.width - 4) 2).foldl (fun acc x =>
        if isStarAt sqrtQ img x y then
          let idx := y * img.width + x
          let val := luma img idx
          let z := (rng acc.2) ^ 3 * 5
          let detectedScale :=
            min 2 (max (3/10) ((val - ringAvg img idx) / 50))
          (acc.1 ++ [⟨(x : ℚ) / (img.width : ℚ), (y : ℚ) / (img.height : ℚ),
            z, detectedScale, none, none⟩], acc.2 + 1)
        else acc) accY = accY := by
    intro accY y
    apply foldl_id
    intro b a
    simp [hstar a y]
  show (scanFold sqrtQ rng img).1 = []
  unfold scanFold
  rw [foldl_id _ hinner]

/-- Witness for C8: a concrete 16 by 16 image whose pixels are all the
mid-grey (100, 100, 100) detects no stars. -/
theorem flat_image_detects_nothing_witness :
    detectStarsFromImage (fun q => q) (fun _ => 1/2)
      (some ⟨16, 16, fun _ => ⟨100, 100, 100⟩⟩) = [] :=
  flat_image_detects_nothing (fun q => q) (fun _ => 1/2)
    ⟨16, 16, fun _ => ⟨100, 100, 100⟩⟩ (fun _ _ => rfl)

/-- C3: a failed decode resolves with the empty particle list (the detector
promise never rejects: both the onerror path and the missing-context path
resolve), and the batch analysis loop processes every item independently —
a failing item is marked error while the items before and after it are still
processed and receive their resolved outcomes; concretely, in a 3-item batch
whose second item fails, items 1 and 3 end with status success and their
resolved particles, item 2 with status error. -/
theorem detector_decode_failure_and_batch_isolation (sqrtQ : ℚ → ℚ)
    (rng : ℕ → ℚ) (a c : Analyzed)
    (pre post : List (Except Unit Analyzed)) :
    detectStarsFromImage sqrtQ rng none = [] ∧
    handleBatchAnalysis rng (pre ++ [Except.error ()] ++ post) =
      handleBatchAnalysis rng pre ++ [⟨.error, .procedural, none⟩] ++
        handleBatchAnalysis rng post ∧
    (handleBatchAnalysis rng [Except.ok a, Except.error (), Except.ok c]).map
        BatchOutcome.status = [.success, .error, .success] ∧
    handleBatchAnalysis rng [Except.ok a, Except.error (), Except.ok c] =
      [processItem rng (Except.ok a), ⟨.error, .procedural, none⟩,
        processItem rng (Except.ok c)] ∧
    (processItem rng (Except.ok a)).status = .success ∧
    (processItem rng (Except.ok a)).detected =
      (resolveParticles a.imageStars a.starHotspots a.dominantColors rng).2 := by
  refine ⟨rfl, ?_, ?_, ?_, ?_, ?_⟩
  · simp [handleBatchAnalysis, processItem]
  · simp [handleBatchAnalysis, processItem]
  · simp [handleBatchAnalysis, processItem]
  · simp [processItem]
  · simp [processItem]

/-! ## Theorems: background estimation and adaptive threshold (C5) -/

/-- Characterization of the running (sum, sum of squares, count)
accumulator as list sums. -/
lemma foldl_stats {α : Type _} (f : α → ℚ) :
    ∀ (l : List α) (s q c : ℚ),
      l.foldl (fun acc i =>
          (acc.1 + f i, acc.2.1 + f i * f i, acc.2.2 + 1)) (s, q, c) =
        (s + (l.map f).sum, q + (l.map (fun i => f i * f i)).sum,
          c + l.length) := by
  intro l
  induction l with
  | nil => intro s q c; simp
  | cons x rest ih =>
      intro s q c
      rw [List.foldl_cons, ih]
      simp only [List.map_cons, List.sum_cons, List.length_cons]
      refine Prod.ext ?_ (Prod.ext ?_ ?_) <;> push_cast <;> ring

/-- A running minimum is a lower bound of its start value and of every
element folded over. -/
lemma foldl_min_le : ∀ (l : List ℚ) (a : ℚ),
    l.foldl min a ≤ a ∧ ∀ v ∈ l, l.foldl min a ≤ v := by
  intro l
  induction l with
  | nil => intro a; simp
  | cons x rest ih =>
      intro a
      rw [List.foldl_cons]
      rcases ih (min a x) with ⟨h1, h2⟩
      refine ⟨le_trans h1 (min_le_left _ _), ?_⟩
      intro v hv
      rcases List.mem_cons.mp hv with rfl | hv
      · exact le_trans h1 (min_le_right _ _)
      · exact h2 v hv

/-- A running minimum is either its start value or one of the folded
elements. -/
lemma foldl_min_mem : ∀ (l : List ℚ) (a : ℚ),
    l.foldl min a = a ∨ l.foldl min a ∈ l := by
  intro l
  induction l with
  | nil => intro a; exact Or.inl rfl
  | cons x rest ih =>
      intro a
      rw [List.foldl_cons]
      rcases ih (min a x) with h | h
      · rcases min_choice a x with hax | hax
        · exact Or.inl (h.trans hax)
        · exact Or.inr (List.mem_cons.mpr (Or.inl (h.trans hax)))
      · exact Or.inr (List.mem_cons.mpr (Or.inr h))

/-- Byte-valued image: every channel is at most 255, as produced by
getImageData. -/
def ByteImage (img : AnalysisImage) : Prop :=
  ∀ i, (img.pixel i).r ≤ 255 ∧ (img.pixel i).g ≤ 255 ∧ (img.pixel i).b ≤ 255

/-- Perceptual luminance of a byte pixel is at most 255 (the weights sum
to 1). -/
lemma luma_le_255 (img : AnalysisImage) (hbyte : ByteImage img) (i : ℕ) :
    luma img i ≤ 255 := by
  rcases hbyte i with ⟨hr, hg, hb⟩
  have hr1 : ((img.pixel i).r : ℚ) ≤ 255 := by exact_mod_cast hr
  have hg1 : ((img.pixel i).g : ℚ) ≤ 255 := by exact_mod_cast hg
  have hb1 : ((img.pixel i).b : ℚ) ≤ 255 := by exact_mod_cast hb
  simp only [luma]
  linarith

/-- C5: the block-background variant partitions the image into 16 by 16
blocks and takes the strided-sampled minimum luminance per block as the
background floor (the floor is attained by a sample and bounds all samples
from below); residuals are max(0, luminance - background); the mean and
standard deviation are computed over residuals sampled at stride 100; the
adaptive threshold is residual mean + k * sigma with k = 3, while the
services variant uses k = 2.5 floored at the absolute minimum 40 — both
sigma multipliers lying in [2.5, 3]. -/
theorem detector_background_and_threshold (sqrtQ : ℚ → ℚ)
    (img : AnalysisImage) (hbyte : ByteImage img) (gx gy : ℕ)
    (hne : blockSamples img gx gy ≠ []) :
    (bgGrid img gx gy ∈ blockSamples img gx gy ∧
      ∀ v ∈ blockSamples img gx gy, bgGrid img gx gy ≤ v) ∧
    (∀ i, sxtResidual img i =
        max 0 (luma img i -
          bgGrid img (i % img.width / BLOCK_SIZE) (i / img.width / BLOCK_SIZE)) ∧
      0 ≤ sxtResidual img i) ∧
    resMean img =
      (sxtResidualSamples img).sum / (sxtResidualSamples img).length ∧
    resVariance img =
      ((sxtResidualSamples img).map (fun v => v * v)).sum /
          (sxtResidualSamples img).length -
        resMean img * resMean img ∧
    sxtThreshold sqrtQ img = resMean img + sqrtQ (resVariance img) * sxtK ∧
    servicesThreshold sqrtQ img =
      max 40 (servicesMean img +
        sqrtQ (max 0 (servicesVariance img)) * servicesK) ∧
    40 ≤ servicesThreshold sqrtQ img ∧
    (5/2 ≤ sxtK ∧ sxtK ≤ 3 ∧ 5/2 ≤ servicesK ∧ servicesK ≤ 3) := by
  have hstats := foldl_stats (sxtResidual img)
    (loopIdx 0 (img.width * img.height) 100) 0 0 0
  have hfst : (sxtStats img).1 = (sxtResidualSamples img).sum := by
    rw [sxtStats, hstats]
    simp [sxtResidualSamples]
  have hsq : (sxtStats img).2.1 =
      ((sxtResidualSamples img).map (fun v => v * v)).sum := by
    rw [sxtStats, hstats]
    simp [sxtResidualSamples, List.map_map]
    rfl
  have hcnt : (sxtStats img).2.2 = ((sxtResidualSamples img).length : ℚ) := by
    rw [sxtStats, hstats]
    simp [sxtResidualSamples]
  refine ⟨?_, ?_, ?_, ?_, rfl, rfl, le_max_left _ _, by norm_num [sxtK], by norm_num [sxtK], by norm_num [servicesK], by norm_num [servicesK]⟩
  · have hle := foldl_min_le (blockSamples img gx gy) 255
    have hmem := foldl_min_mem (blockSamples img gx gy) 255
    have hbound : ∀ v ∈ blockSamples img gx gy, v ≤ 255 := by
      intro v hv
      simp only [blockSamples, List.mem_map] at hv
      rcases hv with ⟨c, _, rfl⟩
      exact luma_le_255 img hbyte _
    refine ⟨?_, hle.2⟩
    rcases hmem with h255 | hm
    · rcases List.exists_mem_of_ne_nil _ hne with ⟨v, hv⟩
      have hvle : bgGrid img gx gy ≤ v := hle.2 v hv
      have hv255 : v ≤ 255 := hbound v hv
      have h255b : bgGrid img gx gy = 255 := h255
      have hv2 : (255 : ℚ) ≤ v := by
        rw [← h255b]
        exact hvle
      have heq : bgGrid img gx gy = v := by
        rw [h255b]
        exact (le_antisymm hv255 hv2).symm
      rw [heq]
      exact hv
    · exact hm
  · intro i
    exact ⟨rfl, le_max_left _ _⟩
  · rw [resMean, hfst, hcnt]
  · rw [resVariance, hsq, hcnt]

/-- Concrete 4 by 4 byte image for the C5 witness. -/
def c5Img : AnalysisImage := ⟨4, 4, fun _ => ⟨10, 20, 30⟩⟩

/-- Witness for C5: the background floor of block (0,0) of a concrete byte
image is attained among the sampled luminances, and the services threshold
honours its absolute floor of 40. -/
theorem detector_background_and_threshold_witness :
    bgGrid c5Img 0 0 ∈ blockSamples c5Img 0 0 ∧
    40 ≤ servicesThreshold (fun q => q) c5Img := by
  have h := detector_background_and_threshold (fun q => q) c5Img
    (fun _ => ⟨by norm_num [c5Img], by norm_num [c5Img], by norm_num [c5Img]⟩)
    0 0 (by decide)
  exact ⟨h.1.1, h.2.2.2.2.2.2.1⟩

/-! ## Sprite cache (src/unnamed/part_006 lines 41-112 and 294-305) -/

/-- Rendered radial-gradient sprite, represented by its color-stop list. -/
structure Sprite where
  stops : List (ℚ × String)
deriving DecidableEq, Repr

/-- Cache key of createStarSprite (part_006 line 63): the color string and
the feathering rendered at one decimal (toFixed(1)), embedded as the integer
of tenths. -/
def spriteKey (color : String) (feathering : ℚ) : String × ℤ :=
  (color, round (feathering * 10))

/-- Gradient stops of createStarSprite (part_006 lines 81-97): hot white
core, mid stop in the requested color, fade stop, and an edge stop that
contracts for negative feathering. -/
def spriteGradient (color : String) (feathering : ℚ) : Sprite :=
  let edgeStop : ℚ := if feathering < 0 then 1 - (|feathering| / 3) * (65/100) else 1
  let fadeColor := if color.length = 7 then color ++ "40" else color
  let fadePoint := (6/10) * edgeStop
  ⟨[(0, "#FFFFFF"), (15/100, "#FFFFFF"), (3/10, color),
    (max (31/100) fadePoint, fadeColor), (edgeStop, "rgba(0,0,0,0)")]⟩

/-- Lookup in the sprite cache (Map.has / Map.get of part_006 lines
66-68). -/
def cacheFind (cache : List ((String × ℤ) × Sprite)) (k : String × ℤ) :
    Option Sprite :=
  (cache.find? (fun e => decide (e.1 = k))).map Prod.snd

/-- createStarSprite with its memoization (part_006 lines 62-104): a cache
hit returns the cached sprite and leaves the cache unchanged; a miss renders
the gradient and appends exactly one entry (JS Map insertion order). -/
def createStarSprite (cache : List ((String × ℤ) × Sprite)) (color : String)
    (feathering : ℚ) : Sprite × List ((String × ℤ) × Sprite) :=
  let key := spriteKey color feathering
  match cacheFind cache key with
  | some s => (s, cache)
  | none =>
      let s := spriteGradient color feathering
      (s, cache ++ [(key, s)])

/-- Size-bound eviction of the config-change effect (part_006 lines
106-112): the cache is cleared when it holds more than 200 entries.  This
check runs only when the global particle color or feathering changes. -/
def spriteCacheEvict (cache : List ((String × ℤ) × Sprite)) :
    List ((String × ℤ) × Sprite) :=
  if 200 < cache.length then [] else cache

/-- Config-change effect (part_006 lines 106-112): evict, then rebuild the
default sprite. -/
def configEffect (cache : List ((String × ℤ) × Sprite)) (color : String)
    (feathering : ℚ) : Sprite × List ((String × ℤ) × Sprite) :=
  createStarSprite (spriteCacheEvict cache) color feathering

/-- Per-particle sprite lookups of one drawFrame pass (part_006 lines
294-305): each particle fetches its sprite by its own color (or the global
color) and the current feathering; no size check runs on this path. -/
def drawFrameSprites (cache : List ((String × ℤ) × Sprite))
    (particles : List Particle) (globalColor : String) (feathering : ℚ) :
    List ((String × ℤ) × Sprite) :=
  particles.foldl
    (fun c p => (createStarSprite c ((p.color).getD globalColor) feathering).2)
    cache

/-- A key absent from an extended cache when it is absent from the base and
differs from the appended key. -/
lemma cacheFind_append_single (cache : List ((String × ℤ) × Sprite))
    (k k1 : String × ℤ) (s : Sprite) (hnone : cacheFind cache k = none)
    (hne : k ≠ k1) : cacheFind (cache ++ [(k1, s)]) k = none := by
  simp only [cacheFind, List.find?_append] at *
  rcases hfind : cache.find? (fun e => decide (e.1 = k)) with _ | e
  · simp only [hfind, Option.or]
    simp [Ne.symm hne]
  · rw [hfind] at hnone
    simp at hnone

/-- Growth of the cache along one render of particles with pairwise distinct
colors, all fresh with respect to the initial cache: each particle appends
exactly one entry, with no eviction on the render path. -/
lemma drawFrameSprites_growth (g : String) (f : ℚ) :
    ∀ (colors : List String) (cache : List ((String × ℤ) × Sprite)),
      colors.Nodup →
      (∀ c ∈ colors, cacheFind cache (spriteKey c f) = none) →
      (drawFrameSprites cache
          (colors.map (fun c => ⟨0, 0, 0, 1, none, some c⟩)) g f).length =
        cache.length + colors.length := by
  intro colors
  induction colors with
  | nil => intro cache _ _; simp [drawFrameSprites]
  | cons c0 cs ih =>
      intro cache hnd hfresh
      have hc0 : cacheFind cache (spriteKey c0 f) = none :=
        hfresh c0 (List.mem_cons_self _ _)
      have hstep : drawFrameSprites cache
          ((c0 :: cs).map (fun c => ⟨0, 0, 0, 1, none, some c⟩)) g f =
          drawFrameSprites
            (cache ++ [(spriteKey c0 f, spriteGradient c0 f)])
            (cs.map (fun c => ⟨0, 0, 0, 1, none, some c⟩)) g f := by
        simp only [List.map_cons, drawFrameSprites, List.foldl_cons]
        simp [createStarSprite, hc0]
      rw [hstep, ih (cache ++ [(spriteKey c0 f, spriteGradient c0 f)])
        (List.Nodup.of_cons hnd) ?_]
      · simp only [List.length_append, List.length_cons, List.length_nil]
        omega
      · intro c hc
        apply cacheFind_append_single _ _ _ _ (hfresh c (List.mem_cons_of_mem _ hc))
        intro hkey
        have : c = c0 := congrArg Prod.fst hkey
        exact (List.nodup_cons.mp hnd).1 (this ▸ hc)

/-! ## Theorems: sprite cache (C9) -/

/-- Concrete list of 201 pairwise distinct colors. -/
def c9Colors : List String :=
  (List.range 201).map (fun i => String.mk (List.replicate i 'a'))

/-- Particles carrying the 201 distinct colors. -/
def c9Particles : List Particle :=
  c9Colors.map (fun c => ⟨0, 0, 0, 1, none, some c⟩)

/-- C9 counterexample: a single render pass over 201 particles with
pairwise distinct colors fills the empty cache to 201 entries — above the
200 bound — and no clearing happens on the render path: the eviction check
lives only in the config-change effect, so the cache does not stay bounded
across renders that use many distinct per-particle colors. -/
theorem sprite_cache_exceeds_bound_counterexample :
    (drawFrameSprites [] c9Particles "#ffffff" 0).length = 201 ∧
    200 < (drawFrameSprites [] c9Particles "#ffffff" 0).length := by
  have hinj : Function.Injective
      (fun i : ℕ => String.mk (List.replicate i 'a')) := by
    intro i j hij
    have hij2 : String.mk (List.replicate i 'a') =
        String.mk (List.replicate j 'a') := hij
    have hlen : (String.mk (List.replicate i 'a')).length =
        (String.mk (List.replicate j 'a')).length := by rw [hij2]
    simpa using hlen
  have hnd : c9Colors.Nodup := (List.nodup_range 201).map hinj
  have h := drawFrameSprites_growth "#ffffff" 0 c9Colors []
    hnd (fun c _ => rfl)
  have hlen : c9Colors.length = 201 := by
    simp [c9Colors]
  rw [show c9Particles = c9Colors.map (fun c => ⟨0, 0, 0, 1, none, some c⟩)
    from rfl]
  rw [h, hlen]
  norm_num

/-- C9 amended: the sprite cache memoizes exactly one sprite per
(color, feathering) key — a hit returns the cached sprite and leaves the
cache unchanged, a miss appends exactly one entry; the eviction check, which
runs only when the global color or feathering changes, clears the cache
exactly when it holds more than 200 entries and keeps it untouched
otherwise; the render path itself performs no size check, so a render over
n fresh distinct colors grows the cache by exactly n entries. -/
theorem sprite_cache_memoization (cache : List ((String × ℤ) × Sprite))
    (color g : String) (f : ℚ) :
    (∀ s, cacheFind cache (spriteKey color f) = some s →
      createStarSprite cache color f = (s, cache)) ∧
    (cacheFind cache (spriteKey color f) = none →
      createStarSprite cache color f =
        (spriteGradient color f,
          cache ++ [(spriteKey color f, spriteGradient color f)])) ∧
    (200 < cache.length → spriteCacheEvict cache = []) ∧
    (cache.length ≤ 200 → spriteCacheEvict cache = cache) ∧
    (∀ colors : List String, colors.Nodup →
      (∀ c ∈ colors, cacheFind cache (spriteKey c f) = none) →
      (drawFrameSprites cache
          (colors.map (fun c => ⟨0, 0, 0, 1, none, some c⟩)) g f).length =
        cache.length + colors.length) := by
  refine ⟨?_, ?_, ?_, ?_,
    fun colors hnd hfresh =>
      drawFrameSprites_growth g f colors cache hnd hfresh⟩
  · intro s hs
    simp [createStarSprite, hs]
  · intro h
    simp [createStarSprite, h]
  · intro h
    simp [spriteCacheEvict, h]
  · intro h
    simp [spriteCacheEvict, Nat.not_lt.mpr h]

/-- Witness for C9: a miss on the empty cache inserts exactly one entry, and
the eviction check keeps the empty cache. -/
theorem sprite_cache_memoization_witness :
    createStarSprite [] "#abc123" 0 =
      (spriteGradient "#abc123" 0,
        [(spriteKey "#abc123" 0, spriteGradient "#abc123" 0)]) ∧
    spriteCacheEvict ([] : List ((String × ℤ) × Sprite)) = [] := by
  have h := sprite_cache_memoization [] "#abc123" "#ffffff" 0
  exact ⟨h.2.1 rfl, h.2.2.2.1 (by norm_num)⟩

/-! ## Batch export sequencer (C2)

Labelled transition system for the batch export flow, transcribed from the
handlers of src/App.tsx (handleExportAll lines 879-885, handleImageReady
lines 888-897, handleRecordingComplete lines 901-934) and the canvas
effects of src/unnamed/part_006 (image loading lines 115-132, handshake
lines 137-145, recording lines 392-469).  During a batch export the upload
input, the single-item generate button and the item navigation are disabled
(App.tsx lines 991, 1108, 1139, 1147), so these five events are the only
ones that touch the export state.  The asynchronous settle timeouts are
absorbed into the atomic transitions; the event log kept in the state
records the signal history. -/

/-- Events of the batch export flow. -/
inductive BEvent
  | startExport
  | imgLoaded
  | ready (i : ℕ)
  | capStart (i : ℕ)
  | emit (i : ℕ)
deriving DecidableEq, Repr

/-- Sequencer state: item count, export cursor (batchExportIndex), active
item index, isGenerating flag, canvas image-loaded flag, recorder running
flag, emitted artifact history and event log. -/
structure BState where
  n : ℕ
  cursor : Option ℕ
  active : ℕ
  generating : Bool
  imageLoaded : Bool
  recording : Bool
  emitted : List ℕ
  log : List BEvent
deriving DecidableEq, Repr

/-- Effect of handleRecordingComplete (App.tsx lines 901-934): the recorder
stops, the artifact of the active item is emitted and saved, and the cursor
either advances to the next item (switching the active item and starting a
fresh image load) or is cleared after the last item. -/
def advanceState (s : BState) : BState :=
  let t : BState :=
    { s with
        recording := false
        generating := false
        emitted := s.emitted ++ [s.active]
        log := s.log ++ [BEvent.emit s.active] }
  match s.cursor with
  | some i =>
      if i < s.n - 1 then
        { t with cursor := some (i+1), active := i+1, imageLoaded := false }
      else
        { t with cursor := none }
  | none => t

/-- One transition of the batch export flow. -/
inductive BStep : BState → BEvent → BState → Prop
  /-- handleExportAll (App.tsx lines 879-885): enabled only while no export
  runs and nothing is generating (the button is disabled otherwise, line
  1139); clears the saved videos, sets the cursor and active item to 0.
  The image stays loaded only if item 0 was already the active item. -/
  | startExport (s : BState) (h1 : s.cursor = none) (h2 : s.generating = false)
      (h3 : 0 < s.n) :
      BStep s .startExport
        { s with
            cursor := some 0
            active := 0
            emitted := []
            imageLoaded := s.imageLoaded && decide (s.active = 0)
            log := s.log ++ [BEvent.startExport] }
  /-- Image decode completion (part_006 lines 121-129): the pending load of
  the active item finishes and marks the image loaded. -/
  | imgLoaded (s : BState) (h : s.imageLoaded = false) :
      BStep s .imgLoaded
        { s with
            imageLoaded := true
            log := s.log ++ [BEvent.imgLoaded] }
  /-- Handshake effect (part_006 lines 137-145) feeding handleImageReady
  (App.tsx lines 888-897): enabled whenever the image is loaded — also when
  it had finished loading before the sequencer selected the item — and
  switches on isGenerating exactly when the cursor sits on the active item
  and nothing is generating yet. -/
  | ready (s : BState) (h : s.imageLoaded = true) :
      BStep s (.ready s.active)
        { s with
            generating :=
              if s.cursor = some s.active ∧ s.generating = false then true
              else s.generating
            log := s.log ++ [BEvent.ready s.active] }
  /-- Recording effect (part_006 lines 392-460): runs once generating and
  image-loaded hold, and starts the recorder — capture begins. -/
  | capStart (s : BState) (h1 : s.generating = true) (h2 : s.imageLoaded = true)
      (h3 : s.recording = false) :
      BStep s (.capStart s.active)
        { s with
            recording := true
            log := s.log ++ [BEvent.capStart s.active] }
  /-- Recorder stop timer and onstop (part_006 lines 443-458) feeding
  handleRecordingComplete: flushes the chunks into the artifact of the
  active item and advances or clears the cursor. -/
  | emit (s : BState) (h : s.recording = true) :
      BStep s (.emit s.active) (advanceState s)

/-- Reachable sequencer states: any idle pre-export state, then closed
under transitions. -/
inductive BReachable : BState → Prop
  | init (n active : ℕ) (img : Bool) :
      BReachable ⟨n, none, active, false, img, false, [], []⟩
  | step {s s' : BState} {e : BEvent} :
      BReachable s → BStep s e s' → BReachable s'

/-- Sequencer invariant: while the cursor sits at item i, the active item is
i, exactly the artifacts of items 0..i-1 have been emitted in order, and a
set generating flag certifies a logged ready signal for i; without a cursor
nothing generates or records; a running recorder implies generating with a
loaded image. -/
def BInv (s : BState) : Prop :=
  (∀ i, s.cursor = some i → i < s.n ∧ s.active = i ∧
    s.emitted = List.range i ∧
    (s.generating = true → BEvent.ready i ∈ s.log)) ∧
  (s.cursor = none → s.generating = false ∧ s.recording = false) ∧
  (s.recording = true → s.generating = true ∧ s.imageLoaded = true)

/-- The invariant is preserved by every transition. -/
lemma binv_preserved {s s' : BState} {e : BEvent} (hinv : BInv s)
    (hstep : BStep s e s') : BInv s' := by
  rcases hinv with ⟨hcur, hnone, hrec⟩
  cases hstep with
  | startExport h1 h2 h3 =>
      refine ⟨?_, ?_, ?_⟩
      · intro i hi
        have hi2 : some 0 = some i := hi
        rcases Option.some.inj hi2 with rfl
        refine ⟨h3, rfl, rfl, ?_⟩
        intro hg
        have hg2 : s.generating = true := hg
        rw [h2] at hg2
        exact (Bool.false_ne_true hg2).elim
      · intro hnil
        have hnil2 : (some 0 : Option ℕ) = none := hnil
        exact (Option.some_ne_none _ hnil2).elim
      · intro hrc
        have hrc2 : s.recording = true := hrc
        rw [(hnone h1).2] at hrc2
        exact (Bool.false_ne_true hrc2).elim
  | imgLoaded h =>
      refine ⟨?_, ?_, ?_⟩
      · intro i hi
        have hi2 : s.cursor = some i := hi
        rcases hcur i hi2 with ⟨ha, hb, hc, hd⟩
        exact ⟨ha, hb, hc, fun hg => List.mem_append_left _ (hd hg)⟩
      · intro hnil
        have hnil2 : s.cursor = none := hnil
        exact hnone hnil2
      · intro hrc
        have hrc2 : s.recording = true := hrc
        exact ⟨(hrec hrc2).1, rfl⟩
  | ready h =>
      refine ⟨?_, ?_, ?_⟩
      · intro i hi
        have hi2 : s.cursor = some i := hi
        rcases hcur i hi2 with ⟨ha, hb, hc, _⟩
        refine ⟨ha, hb, hc, ?_⟩
        intro _
        apply List.mem_append_right
        simp [hb]
      · intro hnil
        have hnil2 : s.cursor = none := hnil
        have hcond : ¬ (s.cursor = some s.active ∧ s.generating = false) := by
          intro hcond
          rw [hnil2] at hcond
          exact Option.noConfusion hcond.1
        constructor
        · show (if s.cursor = some s.active ∧ s.generating = false then true
            else s.generating) = false
          rw [if_neg hcond]
          exact (hnone hnil2).1
        · exact (hnone hnil2).2
      · intro hrc
        have hrc2 : s.recording = true := hrc
        refine ⟨?_, (hrec hrc2).2⟩
        show (if s.cursor = some s.active ∧ s.generating = false then true
          else s.generating) = true
        by_cases hcond : s.cursor = some s.active ∧ s.generating = false
        · rw [if_pos hcond]
        · rw [if_neg hcond]
          exact (hrec hrc2).1
  | capStart h1 h2 h3 =>
      refine ⟨?_, ?_, ?_⟩
      · intro i hi
        have hi2 : s.cursor = some i := hi
        rcases hcur i hi2 with ⟨ha, hb, hc, hd⟩
        exact ⟨ha, hb, hc, fun hg => List.mem_append_left _ (hd hg)⟩
      · intro hnil
        have hnil2 : s.cursor = none := hnil
        have hgf := (hnone hnil2).1
        rw [hgf] at h1
        exact (Bool.false_ne_true h1).elim
      · intro _
        exact ⟨h1, h2⟩
  | emit h =>
      have hg := (hrec h).1
      rcases hcs : s.cursor with _ | i
      · have hrf := (hnone hcs).2
        rw [hrf] at h
        exact (Bool.false_ne_true h).elim
      · rcases hcur i hcs with ⟨ha, hb, hc, _⟩
        by_cases hlt : i < s.n - 1
        · refine ⟨?_, ?_, ?_⟩
          · intro j hj
            simp only [advanceState, hcs, if_pos hlt] at hj
            rcases Option.some.inj hj with rfl
            have hn : (advanceState s).n = s.n := by
              simp [advanceState, hcs, if_pos hlt]
            refine ⟨by rw [hn]; omega, ?_, ?_, ?_⟩
            · simp [advanceState, hcs, if_pos hlt]
            · simp only [advanceState, hcs, if_pos hlt]
              rw [hc, hb, List.range_succ]
            · intro hgen
              simp [advanceState, hcs, if_pos hlt] at hgen
          · intro hj
            simp [advanceState, hcs, if_pos hlt] at hj
          · intro hrc
            simp [advanceState, hcs, if_pos hlt] at hrc
        · refine ⟨?_, ?_, ?_⟩
          · intro j hj
            simp [advanceState, hcs, if_neg hlt] at hj
          · intro _
            constructor
            · simp [advanceState, hcs, if_neg hlt]
            · simp [advanceState, hcs, if_neg hlt]
          · intro hrc
            simp [advanceState, hcs, if_neg hlt] at hrc

/-- Every reachable sequencer state satisfies the invariant. -/
lemma breachable_inv {s : BState} (hr : BReachable s) : BInv s := by
  induction hr with
  | init n active img =>
      refine ⟨?_, ?_, ?_⟩
      · intro i h
        exact (Option.some_ne_none _ h.symm).elim
      · intro _
        exact ⟨rfl, rfl⟩
      · intro h
        exact (Bool.false_ne_true h).elim
  | step hr hstep ih => exact binv_preserved ih hstep

/-- C2: in every reachable state of the batch export flow, (a) whenever a
capture-start transition fires for item j, the cursor sits on j, the
image-ready signal for j has already been logged, and exactly the artifacts
of items 0..j-1 have been emitted — so capture for item i+1 never starts
before the artifact of item i was flushed and the ready signal for i+1
fired; (b) an emit transition at cursor i appends artifact i and advances
the cursor to i+1 when i is not the last item, and clears it otherwise; and
(c) the ready transition is enabled whenever the image is loaded — also
when it had finished loading before the sequencer selected the item — and
it switches generation on: the handshake loses no wake-ups. -/
theorem batch_export_ordering (s : BState) (hr : BReachable s) :
    (∀ j s', BStep s (BEvent.capStart j) s' →
      j = s.active ∧ s.cursor = some j ∧ BEvent.ready j ∈ s.log ∧
        s.emitted = List.range j) ∧
    (∀ i s', s.cursor = some i → BStep s (BEvent.emit i) s' →
      s'.emitted = List.range (i+1) ∧
      (i < s.n - 1 → s'.cursor = some (i+1) ∧ s'.active = i+1) ∧
      (¬ i < s.n - 1 → s'.cursor = none)) ∧
    (s.imageLoaded = true → s.cursor = some s.active → s.generating = false →
      ∃ s', BStep s (BEvent.ready s.active) s' ∧ s'.generating = true) := by
  rcases breachable_inv hr with ⟨hcur, hnone, hrec⟩
  refine ⟨?_, ?_, ?_⟩
  · intro j s' hstep
    cases hstep with
    | capStart h1 h2 h3 =>
        rcases hcs : s.cursor with _ | i
        · have hgf := (hnone hcs).1
          rw [hgf] at h1
          exact (Bool.false_ne_true h1).elim
        · rcases hcur i hcs with ⟨_, hb, hc, hd⟩
          refine ⟨rfl, ?_, ?_, ?_⟩
          · rw [hb]
          · rw [hb]
            exact hd h1
          · rw [hc, hb]
  · intro i s' hcs hstep
    cases hstep with
    | emit h =>
        rcases hcur s.active hcs with ⟨ha, _, hc, _⟩
        refine ⟨?_, ?_, ?_⟩
        · have hsplit : (advanceState s).emitted = s.emitted ++ [s.active] := by
            by_cases hlt : s.active < s.n - 1 <;>
              simp [advanceState, hcs, hlt]
          rw [hsplit, hc, List.range_succ]
        · intro hlt
          constructor
          · simp [advanceState, hcs, hlt]
          · simp [advanceState, hcs, hlt]
        · intro hlt
          simp [advanceState, hcs, hlt]
  · intro himg hca hgen
    refine ⟨_, BStep.ready s himg, ?_⟩
    show (if s.cursor = some s.active ∧ s.generating = false then true
      else s.generating) = true
    rw [if_pos ⟨hca, hgen⟩]

/-- Concrete reachable state of a two-item batch export: the artifact of
item 0 has been emitted, the image of item 1 has loaded and its ready
signal has fired. -/
def c2s7 : BState :=
  ⟨2, some 1, 1, true, true, false, [0],
   [BEvent.startExport, BEvent.imgLoaded, BEvent.ready 0, BEvent.capStart 0,
    BEvent.emit 0, BEvent.imgLoaded, BEvent.ready 1]⟩

/-- Witness for C2: the ordering theorem applied to the concrete two-item
trace at the moment capture of item 1 starts: the ready signal of item 1 is
logged, exactly the artifact of item 0 has been emitted, and the cursor
sits on item 1. -/
theorem batch_export_ordering_witness :
    BEvent.ready 1 ∈ c2s7.log ∧ c2s7.emitted = List.range 1 ∧
      c2s7.cursor = some 1 := by
  have hreach : BReachable c2s7 := by
    have h0 := BReachable.init 2 0 false
    have h1 := BReachable.step h0 (BStep.startExport _ rfl rfl (by decide))
    have h2 := BReachable.step h1 (BStep.imgLoaded _ rfl)
    have h3 := BReachable.step h2 (BStep.ready _ rfl)
    have h4 := BReachable.step h3 (BStep.capStart _ rfl rfl rfl)
    have h5 := BReachable.step h4 (BStep.emit _ rfl)
    have h6 := BReachable.step h5 (BStep.imgLoaded _ rfl)
    have h7 := BReachable.step h6 (BStep.ready _ rfl)
    exact h7
  have hstep : BStep c2s7 (BEvent.capStart 1)
      { c2s7 with
          recording := true
          log := c2s7.log ++ [BEvent.capStart 1] } :=
    BStep.capStart c2s7 rfl rfl rfl
  have h := (batch_export_ordering c2s7 hreach).1 1 _ hstep
  exact ⟨h.2.2.1, h.2.2.2, h.2.1⟩
